import Mathlib

/-!
Verification of the RESP2/RESP3 wire decoder, session loop and plugin
registry of the proxyx Redis proxy (package redisproxy, handler.go),
as a shallow embedding: the byte stream read by a bufio.Reader is a
List Nat of byte values, every reader function consumes a prefix of that
list and returns the decoded value, the raw bytes it consumed and the
remaining stream, and fallible reads return Except.
-/

deriving instance DecidableEq for Except

namespace Proxyx

/-- Nat list of an ASCII string literal (byte values of its characters). -/
def bytesOf (s : String) : List Nat := s.data.map Char.toNat

/-- Models bufio.Reader.ReadString with delimiter a newline: consumes up to and
including the first 10 byte; none models the io.EOF error Go returns when the
stream ends before a newline (the partially read data is then discarded by
every caller, which returns the error). -/
def readLine : List Nat → Option (List Nat × List Nat)
  | [] => none
  | b :: rest =>
    if b = 10 then some ([b], rest)
    else
      match readLine rest with
      | none => none
      | some (line, rest') => some (b :: line, rest')

/-- ASCII whitespace, as recognised by strings.TrimSpace on the byte values
the decoder ever trims (space, tab, newline, vertical tab, form feed, CR). -/
def isSpaceByte (b : Nat) : Bool :=
  b = 32 || b = 9 || b = 10 || b = 11 || b = 12 || b = 13

/-- Models strings.TrimSpace: drop whitespace from both ends. -/
def trimSpace (l : List Nat) : List Nat :=
  ((l.dropWhile isSpaceByte).reverse.dropWhile isSpaceByte).reverse

/-- ASCII decimal digit. -/
def isDigitByte (b : Nat) : Bool := 48 ≤ b && b ≤ 57

/-- Value of a nonempty all-digit byte string, most significant digit first;
none when empty or when any byte is not a digit. -/
def digitsVal (l : List Nat) : Option Nat :=
  if l = [] then none
  else if l.all isDigitByte then some (l.foldl (fun n b => 10 * n + (b - 48)) 0)
  else none

/-- Models strconv.Atoi on a byte string: an optional sign followed by at
least one digit; anything else is an error (none). -/
def atoi (l : List Nat) : Option Int :=
  if l.head? = some 43 then (digitsVal l.tail).map (fun n => (n : Int))
  else if l.head? = some 45 then (digitsVal l.tail).map (fun n => -(n : Int))
  else (digitsVal l).map (fun n => (n : Int))

/-- Models io.ReadFull of n bytes: the n bytes and the rest, or none (an EOF
error) when fewer than n bytes remain. -/
def takeExact (n : Nat) (l : List Nat) : Option (List Nat × List Nat) :=
  if n ≤ l.length then some (l.take n, l.drop n) else none

/-- Digit bytes of a positive number, most significant first; fuel bounds the
number of divisions (fuel at least n is always enough). -/
def natBytesAux : Nat → Nat → List Nat
  | 0, _ => []
  | fuel + 1, n => if n = 0 then [] else natBytesAux fuel (n / 10) ++ [n % 10 + 48]

/-- Decimal representation of a natural number, as fmt's verb d prints it. -/
def natBytes (n : Nat) : List Nat :=
  if n = 0 then [48] else natBytesAux n n

/-- The errors the decoder can return. eof stands for the io.EOF and
io.ErrUnexpectedEOF conditions of ReadString / ReadFull; the other
constructors carry the text the corresponding fmt.Errorf interpolates. -/
inductive Err where
  | eof : Err
  | invalidArray (line : List Nat) : Err
  | invalidCount (s : List Nat) : Err
  | emptyCommand : Err
  | expectedBulk (line : List Nat) : Err
  | invalidBulkLen (s : List Nat) : Err
  | atoiFail (s : List Nat) : Err
  deriving DecidableEq, Repr

/-- ASCII uppercase of one byte, as strings.ToUpper maps the byte values a
command name is made of. -/
def toUpperNat (b : Nat) : Nat := if 97 ≤ b ∧ b ≤ 122 then b - 32 else b

/-- Models strings.ToUpper on a byte string. -/
def toUpperBytes (l : List Nat) : List Nat := l.map toUpperNat

/-- Models Handler.readBulkString (command side): a length line
starting with the dollar byte, then length + 2 payload bytes; a negative
length consumes only the line and yields the empty value.
Returns (value, raw, rest). -/
def readBulkString (input : List Nat) :
    Except Err (List Nat × List Nat × List Nat) :=
  match readLine input with
  | none => .error .eof
  | some (line, rest) =>
    if line.length < 3 ∨ line.head? ≠ some 36 then .error (.expectedBulk line)
    else
      match atoi (trimSpace (line.drop 1)) with
      | none => .error (.invalidBulkLen (trimSpace (line.drop 1)))
      | some len =>
        if len < 0 then .ok ([], line, rest)
        else
          match takeExact (len.toNat + 2) rest with
          | none => .error .eof
          | some (data, rest') => .ok (data.take len.toNat, line ++ data, rest')

/-- The count-many bulk strings of a multi-part command, in order; returns
(values, raw of all elements, rest). -/
def readParts : Nat → List Nat → Except Err (List (List Nat) × List Nat × List Nat)
  | 0, input => .ok ([], [], input)
  | n + 1, input =>
    match readBulkString input with
    | .error e => .error e
    | .ok (v, r, rest) =>
      match readParts n rest with
      | .error e => .error e
      | .ok (vs, rs, rest') => .ok (v :: vs, r ++ rs, rest')

/-- Models Handler.readRESPCommand: a star count line, then count bulk
strings; the first, uppercased, is the command, the rest are the arguments.
Returns (command, args, raw, rest). -/
def readRESPCommand (input : List Nat) :
    Except Err (List Nat × List (List Nat) × List Nat × List Nat) :=
  match readLine input with
  | none => .error .eof
  | some (line, rest) =>
    if line.length < 3 ∨ line.head? ≠ some 42 then .error (.invalidArray line)
    else
      match atoi (trimSpace (line.drop 1)) with
      | none => .error (.invalidCount (trimSpace (line.drop 1)))
      | some count =>
        if count ≤ 0 then .error .emptyCommand
        else
          match readParts count.toNat rest with
          | .error e => .error e
          | .ok (parts, partsRaw, rest') =>
            .ok (toUpperBytes (parts.headD []), parts.drop 1, line ++ partsRaw, rest')

/-- Accumulator pass of fields. -/
def fieldsAux : List Nat → List Nat → List (List Nat)
  | [], acc => if acc = [] then [] else [acc.reverse]
  | b :: rest, acc =>
    if isSpaceByte b then
      if acc = [] then fieldsAux rest [] else acc.reverse :: fieldsAux rest []
    else fieldsAux rest (b :: acc)

/-- Models strings.Fields: maximal runs of non-whitespace bytes. -/
def fields (l : List Nat) : List (List Nat) := fieldsAux l []

/-- Models Handler.readInlineCommand: one line of whitespace-separated
tokens; blank lines are the empty-command error. -/
def readInlineCommand (input : List Nat) :
    Except Err (List Nat × List (List Nat) × List Nat × List Nat) :=
  match readLine input with
  | none => .error .eof
  | some (line, rest) =>
    if trimSpace line = [] then .error .emptyCommand
    else
      .ok (toUpperBytes ((fields (trimSpace line)).headD []),
           (fields (trimSpace line)).drop 1, line, rest)

/-- Models Handler.readCommand: peek the first byte; a star selects the
multi-part form, anything else the inline form; an empty stream is EOF. -/
def readCommand :
    List Nat → Except Err (List Nat × List (List Nat) × List Nat × List Nat)
  | [] => .error .eof
  | b :: rest =>
    if b = 42 then readRESPCommand (b :: rest) else readInlineCommand (b :: rest)

/-- Result of a response read: (summary, raw bytes consumed, remaining stream). -/
abbrev RResult := List Nat × List Nat × List Nat

/-- Models Handler.readSimpleString (tags plus, minus, colon, comma, open
paren): one line; summary is its trimmed text. raw0 is the tag byte already
consumed by readResponse. -/
def readSimpleString (raw0 : List Nat) (input : List Nat) : Except Err RResult :=
  match readLine input with
  | none => .error .eof
  | some (line, rest) => .ok (trimSpace line, raw0 ++ line, rest)

/-- Models Handler.readNull (RESP3 underscore tag): one line, summary is the
literal text (nil). -/
def readNull (raw0 : List Nat) (input : List Nat) : Except Err RResult :=
  match readLine input with
  | none => .error .eof
  | some (line, rest) => .ok (bytesOf "(nil)", raw0 ++ line, rest)

/-- Models Handler.readBoolean (RESP3 hash tag): one line; summary is true
when the trimmed content is the single byte t, false otherwise. -/
def readBoolean (raw0 : List Nat) (input : List Nat) : Except Err RResult :=
  match readLine input with
  | none => .error .eof
  | some (line, rest) =>
    if trimSpace line = bytesOf "t" then .ok (bytesOf "true", raw0 ++ line, rest)
    else .ok (bytesOf "false", raw0 ++ line, rest)

/-- Models Handler.readBulkStringResponse (dollar and blob-error tags): a
length line, then length + 2 bytes; negative length is the RESP2 null. The
summary of a payload longer than 50 bytes is its first 50 bytes followed by
three ASCII dots; otherwise the whole payload. -/
def readBulkStringResponse (raw0 : List Nat) (input : List Nat) : Except Err RResult :=
  match readLine input with
  | none => .error .eof
  | some (line, rest) =>
    match atoi (trimSpace line) with
    | none => .error (.atoiFail (trimSpace line))
    | some len =>
      if len < 0 then .ok (bytesOf "(nil)", raw0 ++ line, rest)
      else
        match takeExact (len.toNat + 2) rest with
        | none => .error .eof
        | some (data, rest') =>
          if 50 < len then
            .ok (data.take 50 ++ bytesOf "...", raw0 ++ line ++ data, rest')
          else
            .ok (data.take len.toNat, raw0 ++ line ++ data, rest')

/-- Models Handler.readVerbatimString (RESP3 equals tag): shaped like a bulk
string; the leading 4 content bytes (the encoding marker) are skipped, but
only when the content is longer than 4 bytes; then the same 50-byte
truncation as bulk strings. -/
def readVerbatimString (raw0 : List Nat) (input : List Nat) : Except Err RResult :=
  match readLine input with
  | none => .error .eof
  | some (line, rest) =>
    match atoi (trimSpace line) with
    | none => .error (.atoiFail (trimSpace line))
    | some len =>
      if len < 0 then .ok (bytesOf "(nil)", raw0 ++ line, rest)
      else
        match takeExact (len.toNat + 2) rest with
        | none => .error .eof
        | some (data, rest') =>
          let content := data.take len.toNat
          let content := if 4 < content.length then content.drop 4 else content
          if 50 < content.length then
            .ok (content.take 50 ++ bytesOf "...", raw0 ++ line ++ data, rest')
          else
            .ok (content, raw0 ++ line ++ data, rest')

/-- The n-times element loop shared by the aggregate readers: read n nested
response units with the recursive reader f, discarding their summaries and
accumulating their raw bytes. Returns (raw, rest). -/
def readElemsWith (f : List Nat → Except Err RResult) :
    Nat → List Nat → Except Err (List Nat × List Nat)
  | 0, input => .ok ([], input)
  | n + 1, input =>
    match f input with
    | .error e => .error e
    | .ok (_, r, rest) =>
      match readElemsWith f n rest with
      | .error e => .error e
      | .ok (rs, rest') => .ok (r ++ rs, rest')

/-- Models Handler.readArrayResponse (star and push tags): a count line,
then count nested units read with f; negative count is the null array,
zero the empty array, otherwise the summary states the element count. -/
def readArrayResponse (f : List Nat → Except Err RResult)
    (raw0 : List Nat) (input : List Nat) : Except Err RResult :=
  match readLine input with
  | none => .error .eof
  | some (line, rest) =>
    match atoi (trimSpace line) with
    | none => .error (.atoiFail (trimSpace line))
    | some count =>
      if count < 0 then .ok (bytesOf "(nil)", raw0 ++ line, rest)
      else if count = 0 then .ok (bytesOf "(empty array)", raw0 ++ line, rest)
      else
        match readElemsWith f count.toNat rest with
        | .error e => .error e
        | .ok (rs, rest') =>
          .ok (bytesOf "(" ++ natBytes count.toNat ++ bytesOf " elements)",
               raw0 ++ line ++ rs, rest')

/-- Models Handler.readMapResponse (RESP3 percent tag): a count line, then
2 times count nested units. -/
def readMapResponse (f : List Nat → Except Err RResult)
    (raw0 : List Nat) (input : List Nat) : Except Err RResult :=
  match readLine input with
  | none => .error .eof
  | some (line, rest) =>
    match atoi (trimSpace line) with
    | none => .error (.atoiFail (trimSpace line))
    | some count =>
      if count < 0 then .ok (bytesOf "(nil)", raw0 ++ line, rest)
      else if count = 0 then .ok (bytesOf "(empty map)", raw0 ++ line, rest)
      else
        match readElemsWith f (count.toNat * 2) rest with
        | .error e => .error e
        | .ok (rs, rest') =>
          .ok (bytesOf "(" ++ natBytes count.toNat ++ bytesOf " entries)",
               raw0 ++ line ++ rs, rest')

/-- Models Handler.readSetResponse (RESP3 tilde tag): same shape as an
array, summary states the member count. -/
def readSetResponse (f : List Nat → Except Err RResult)
    (raw0 : List Nat) (input : List Nat) : Except Err RResult :=
  match readLine input with
  | none => .error .eof
  | some (line, rest) =>
    match atoi (trimSpace line) with
    | none => .error (.atoiFail (trimSpace line))
    | some count =>
      if count < 0 then .ok (bytesOf "(nil)", raw0 ++ line, rest)
      else if count = 0 then .ok (bytesOf "(empty set)", raw0 ++ line, rest)
      else
        match readElemsWith f count.toNat rest with
        | .error e => .error e
        | .ok (rs, rest') =>
          .ok (bytesOf "(" ++ natBytes count.toNat ++ bytesOf " members)",
               raw0 ++ line ++ rs, rest')

/-- Models Handler.readAttributeResponse (RESP3 pipe tag): a count line,
then 2 times count metadata units (none when the count is negative, as the
Go loop bound count times 2 is then not positive), then one more unit whose
summary becomes the summary of the whole attribute response. -/
def readAttributeResponse (f : List Nat → Except Err RResult)
    (raw0 : List Nat) (input : List Nat) : Except Err RResult :=
  match readLine input with
  | none => .error .eof
  | some (line, rest) =>
    match atoi (trimSpace line) with
    | none => .error (.atoiFail (trimSpace line))
    | some count =>
      match readElemsWith f (count * 2).toNat rest with
      | .error e => .error e
      | .ok (rs, rest') =>
        match f rest' with
        | .error e => .error e
        | .ok (s, vraw, rest'') => .ok (s, raw0 ++ line ++ rs ++ vraw, rest'')

/-- Models Handler.readResponse: read the tag byte and dispatch on it; the
fuel argument bounds the nesting depth of the recursion (the Go original
recurses without a bound; any fuel at least the input length is enough,
since every nested unit starts at least one byte further into the stream). -/
def readResponse : Nat → List Nat → Except Err RResult
  | 0, _ => .error .eof
  | _ + 1, [] => .error .eof
  | fuel + 1, b :: rest =>
      if b = 43 then readSimpleString [b] rest
      else if b = 45 then readSimpleString [b] rest
      else if b = 58 then readSimpleString [b] rest
      else if b = 36 then readBulkStringResponse [b] rest
      else if b = 42 then readArrayResponse (readResponse fuel) [b] rest
      else if b = 95 then readNull [b] rest
      else if b = 44 then readSimpleString [b] rest
      else if b = 35 then readBoolean [b] rest
      else if b = 33 then readBulkStringResponse [b] rest
      else if b = 61 then readVerbatimString [b] rest
      else if b = 40 then readSimpleString [b] rest
      else if b = 37 then readMapResponse (readResponse fuel) [b] rest
      else if b = 126 then readSetResponse (readResponse fuel) [b] rest
      else if b = 62 then readArrayResponse (readResponse fuel) [b] rest
      else if b = 124 then readAttributeResponse (readResponse fuel) [b] rest
      else
        match readLine rest with
        | none => .error .eof
        | some (line, rest') => .ok (b :: trimSpace line, b :: line, rest')

/-- One relayed operation, models redisproxy.CommandEvent. Timestamp and
Duration are wall-clock readings and are not part of the embedding; Error
holds the bytes of the Go error string, empty when absent (the Go zero
value), Response the summary of the decoded response. -/
structure CommandEvent where
  command : List Nat
  args : List (List Nat)
  raw : List Nat
  error : List Nat := []
  response : List Nat := []
  deriving DecidableEq, Repr

/-- Text of the error strconv.Atoi produces for a non-numeric input. -/
def atoiErrText (s : List Nat) : List Nat :=
  bytesOf "strconv.Atoi: parsing " ++ [34] ++ s ++ [34] ++ bytesOf ": invalid syntax"

/-- The Go error message of each decoder error, as err.Error() renders it. -/
def errorString : Err → List Nat
  | .eof => bytesOf "EOF"
  | .invalidArray line => bytesOf "invalid RESP array: " ++ line
  | .invalidCount s => bytesOf "invalid array count: " ++ atoiErrText s
  | .emptyCommand => bytesOf "empty command"
  | .expectedBulk line => bytesOf "expected bulk string, got: " ++ line
  | .invalidBulkLen s => bytesOf "invalid bulk string length: " ++ atoiErrText s
  | .atoiFail s => atoiErrText s

/-- The observable actions of one iteration of the session loop, in the
order HandleConnection performs them. -/
inductive SessionAction where
  | dispatchCommand (plugin : List Nat) (e : CommandEvent)
  | forwardToServer (bytes : List Nat)
  | dispatchComplete (plugin : List Nat) (e : CommandEvent)
  | forwardToClient (bytes : List Nat)
  deriving DecidableEq, Repr

/-- Models PluginManager.OnCommand: call every registered plugin, in
registration order, with the event. -/
def onCommandCalls (plugins : List (List Nat)) (e : CommandEvent) : List SessionAction :=
  plugins.map (fun p => .dispatchCommand p e)

/-- Models PluginManager.OnCommandComplete: call every registered plugin,
in registration order, with the event. -/
def onCommandCompleteCalls (plugins : List (List Nat)) (e : CommandEvent) : List SessionAction :=
  plugins.map (fun p => .dispatchComplete p e)

/-- The response-is-error heuristic of HandleConnection: well-known error
prefixes of a decoded response summary. -/
def isErrorSummary (s : List Nat) : Bool :=
  (bytesOf "ERR").isPrefixOf s || (bytesOf "WRONGTYPE").isPrefixOf s ||
    (bytesOf "NOAUTH").isPrefixOf s || (bytesOf "NOPERM").isPrefixOf s

/-- Outcome of one iteration of the HandleConnection loop: the event as
last mutated (none when the command never decoded), the actions performed,
and whether the iteration returned from HandleConnection, closing both
connections, instead of looping. -/
structure StepResult where
  event : Option CommandEvent
  trace : List SessionAction
  closed : Bool
  deriving DecidableEq, Repr

/-- Models one iteration of Handler.HandleConnection: read a command from
the client bytes, create the event, dispatch OnCommand, write the raw
command to the server (writeErr is the error that write returns, none on
success), read the response from the server bytes, dispatch
OnCommandComplete, forward the raw response. Timing fields are not
modelled; everything else follows the Go control flow. -/
def handleOneCommand (plugins : List (List Nat)) (clientIn : List Nat)
    (writeErr : Option (List Nat)) (serverIn : List Nat) (fuel : Nat) : StepResult :=
  match readCommand clientIn with
  | .error _ => { event := none, trace := [], closed := true }
  | .ok (command, args, raw, _) =>
    let e0 : CommandEvent := { command := command, args := args, raw := raw }
    let beginTrace := onCommandCalls plugins e0
    match writeErr with
    | some msg =>
      let e1 := { e0 with error := msg }
      { event := some e1
        trace := beginTrace ++ onCommandCompleteCalls plugins e1
        closed := true }
    | none =>
      match readResponse fuel serverIn with
      | .error err =>
        let e1 := { e0 with error := errorString err }
        { event := some e1
          trace := beginTrace ++ [.forwardToServer raw] ++ onCommandCompleteCalls plugins e1
          closed := true }
      | .ok (summary, respRaw, _) =>
        let e1 := { e0 with response := summary
                            error := if isErrorSummary summary then summary else [] }
        { event := some e1
          trace := beginTrace ++ [.forwardToServer raw] ++ onCommandCompleteCalls plugins e1
            ++ [.forwardToClient respRaw]
          closed := false }

/-- A registered plugin as PluginManager.Close sees it: its name and what
its Close() call returns (some message models a non-nil error). -/
structure PluginSpec where
  name : List Nat
  closeErr : Option (List Nat)
  deriving DecidableEq, Repr

/-- The log line PluginManager.Close prints for a failing plugin Close. -/
def closeLogLine (name msg : List Nat) : List Nat :=
  bytesOf "[Redis PluginManager] Error closing plugin " ++ name ++ bytesOf ": " ++ msg

/-- Models PluginManager.Close: call Close on every registered plugin in
registration order, log a failing Close and keep going, and return nil.
Yields (the Close calls made in order, the log lines, the returned error). -/
def pmClose : List PluginSpec → List (List Nat) × List (List Nat) × Option (List Nat)
  | [] => ([], [], none)
  | p :: rest =>
    let tail := pmClose rest
    match p.closeErr with
    | some msg => (p.name :: tail.1, closeLogLine p.name msg :: tail.2.1, tail.2.2)
    | none => (p.name :: tail.1, tail.2.1, tail.2.2)

/-- CRLF line terminator. -/
def crlf : List Nat := [13, 10]

/-- Wire encoding of one bulk string of a multi-part command. -/
def encodeBulk (s : List Nat) : List Nat :=
  36 :: natBytes s.length ++ crlf ++ s ++ crlf

/-- Wire encoding of a multi-part command: the star count line, then each
element as a bulk string. -/
def encodeMultiPart (parts : List (List Nat)) : List Nat :=
  42 :: natBytes parts.length ++ crlf ++ (parts.map encodeBulk).flatten

/-- Wire encoding of a bulk-string response body (what follows the tag
byte): the length line, the payload and its CRLF. -/
def encodeBulkBody (p : List Nat) : List Nat :=
  natBytes p.length ++ crlf ++ p ++ crlf

/-- The summary the code computes for a non-null bulk-string payload: the
first 50 bytes followed by three ASCII dots when longer than 50 bytes,
otherwise the payload itself. -/
def bulkSummary (p : List Nat) : List Nat :=
  if 50 < p.length then p.take 50 ++ bytesOf "..." else p

/-- The summary the code computes for a verbatim-string payload: the
leading 4 bytes are dropped only when the payload is longer than 4 bytes,
then the bulk truncation applies. -/
def verbatimSummary (p : List Nat) : List Nat :=
  bulkSummary (if 4 < p.length then p.drop 4 else p)

/-- UTF-8 bytes of the horizontal ellipsis character U+2026. -/
def specEllipsis : List Nat := [226, 128, 166]

/-- Stated from the spec's words, for comparison with the code: a payload
longer than 50 bytes summarizes to its first 50 bytes followed by the
one-character ellipsis string. -/
def specBulkSummary (p : List Nat) : List Nat :=
  if 50 < p.length then p.take 50 ++ specEllipsis else p

/-- Stated from the spec's words, for comparison with the code: a verbatim
payload always has its leading 4 content bytes stripped before the bulk
truncation rule. -/
def specVerbatimSummary (p : List Nat) : List Nat :=
  specBulkSummary (p.drop 4)

/-! Consumed-bytes lemmas: every reader returns, on success, exactly the
prefix of the stream it consumed. -/

theorem readLine_append (input : List Nat) :
    ∀ line rest, readLine input = some (line, rest) → line ++ rest = input := by
  induction input with
  | nil => intro line rest h; simp [readLine] at h
  | cons b bs ih =>
    intro line rest h
    unfold readLine at h
    split at h
    · rename_i hb
      simp only [Option.some.injEq, Prod.mk.injEq] at h
      obtain ⟨h1, h2⟩ := h
      subst h1; subst h2; subst hb; rfl
    · rename_i hb
      cases hrec : readLine bs with
      | none => rw [hrec] at h; simp at h
      | some p =>
        obtain ⟨l', r'⟩ := p
        rw [hrec] at h
        simp only [Option.some.injEq, Prod.mk.injEq] at h
        obtain ⟨h1, h2⟩ := h
        subst h1; subst h2
        simpa using congrArg (b :: ·) (ih l' r' hrec)

theorem takeExact_append (n : Nat) (l a b : List Nat)
    (h : takeExact n l = some (a, b)) : a ++ b = l := by
  unfold takeExact at h
  split at h
  · simp only [Option.some.injEq, Prod.mk.injEq] at h
    obtain ⟨h1, h2⟩ := h
    subst h1; subst h2
    exact List.take_append_drop n l
  · simp at h

theorem readSimpleString_consumed (raw0 input s raw rest : List Nat)
    (h : readSimpleString raw0 input = .ok (s, raw, rest)) :
    raw ++ rest = raw0 ++ input := by
  unfold readSimpleString at h
  cases hl : readLine input with
  | none => simp [hl] at h
  | some p =>
    obtain ⟨line, rest1⟩ := p
    simp only [hl, Except.ok.injEq, Prod.mk.injEq] at h
    obtain ⟨-, h2, h3⟩ := h
    subst h2; subst h3
    rw [List.append_assoc, readLine_append input line _ hl]

theorem readNull_consumed (raw0 input s raw rest : List Nat)
    (h : readNull raw0 input = .ok (s, raw, rest)) :
    raw ++ rest = raw0 ++ input := by
  unfold readNull at h
  cases hl : readLine input with
  | none => simp [hl] at h
  | some p =>
    obtain ⟨line, rest1⟩ := p
    simp only [hl, Except.ok.injEq, Prod.mk.injEq] at h
    obtain ⟨-, h2, h3⟩ := h
    subst h2; subst h3
    rw [List.append_assoc, readLine_append input line _ hl]

theorem readBoolean_consumed (raw0 input s raw rest : List Nat)
    (h : readBoolean raw0 input = .ok (s, raw, rest)) :
    raw ++ rest = raw0 ++ input := by
  unfold readBoolean at h
  cases hl : readLine input with
  | none => simp [hl] at h
  | some p =>
    obtain ⟨line, rest1⟩ := p
    simp only [hl] at h
    split at h <;>
    · simp only [Except.ok.injEq, Prod.mk.injEq] at h
      obtain ⟨-, h2, h3⟩ := h
      subst h2; subst h3
      rw [List.append_assoc, readLine_append input line _ hl]

theorem readBulkStringResponse_consumed (raw0 input s raw rest : List Nat)
    (h : readBulkStringResponse raw0 input = .ok (s, raw, rest)) :
    raw ++ rest = raw0 ++ input := by
  unfold readBulkStringResponse at h
  cases hl : readLine input with
  | none => simp [hl] at h
  | some p =>
    obtain ⟨line, rest1⟩ := p
    simp only [hl] at h
    cases ha : atoi (trimSpace line) with
    | none => simp [ha] at h
    | some len =>
      simp only [ha] at h
      split at h
      · simp only [Except.ok.injEq, Prod.mk.injEq] at h
        obtain ⟨-, h2, h3⟩ := h
        subst h2; subst h3
        rw [List.append_assoc, readLine_append input line _ hl]
      · cases ht : takeExact (len.toNat + 2) rest1 with
        | none => simp [ht] at h
        | some q =>
          obtain ⟨data, rest2⟩ := q
          simp only [ht] at h
          split at h <;>
          · simp only [Except.ok.injEq, Prod.mk.injEq] at h
            obtain ⟨-, h2, h3⟩ := h
            subst h2; subst h3
            rw [List.append_assoc, List.append_assoc, takeExact_append _ _ _ _ ht,
              readLine_append input line _ hl]

theorem readVerbatimString_consumed (raw0 input s raw rest : List Nat)
    (h : readVerbatimString raw0 input = .ok (s, raw, rest)) :
    raw ++ rest = raw0 ++ input := by
  unfold readVerbatimString at h
  cases hl : readLine input with
  | none => simp [hl] at h
  | some p =>
    obtain ⟨line, rest1⟩ := p
    simp only [hl] at h
    cases ha : atoi (trimSpace line) with
    | none => simp [ha] at h
    | some len =>
      simp only [ha] at h
      split at h
      · simp only [Except.ok.injEq, Prod.mk.injEq] at h
        obtain ⟨-, h2, h3⟩ := h
        subst h2; subst h3
        rw [List.append_assoc, readLine_append input line _ hl]
      · cases ht : takeExact (len.toNat + 2) rest1 with
        | none => simp [ht] at h
        | some q =>
          obtain ⟨data, rest2⟩ := q
          simp only [ht] at h
          split at h <;> split at h <;>
          · simp only [Except.ok.injEq, Prod.mk.injEq] at h
            obtain ⟨-, h2, h3⟩ := h
            subst h2; subst h3
            rw [List.append_assoc, List.append_assoc, takeExact_append _ _ _ _ ht,
              readLine_append input line _ hl]

theorem readElemsWith_consumed (f : List Nat → Except Err RResult)
    (hf : ∀ input s raw rest, f input = .ok (s, raw, rest) → raw ++ rest = input) :
    ∀ n input raw rest, readElemsWith f n input = .ok (raw, rest) → raw ++ rest = input := by
  intro n
  induction n with
  | zero =>
    intro input raw rest h
    simp only [readElemsWith, Except.ok.injEq, Prod.mk.injEq] at h
    obtain ⟨h1, h2⟩ := h
    subst h1; subst h2; rfl
  | succ n ih =>
    intro input raw rest h
    unfold readElemsWith at h
    cases hfi : f input with
    | error e => simp [hfi] at h
    | ok t =>
      obtain ⟨s1, r1, rest1⟩ := t
      simp only [hfi] at h
      cases hrec : readElemsWith f n rest1 with
      | error e => simp [hrec] at h
      | ok t2 =>
        obtain ⟨rs, rest2⟩ := t2
        simp only [hrec, Except.ok.injEq, Prod.mk.injEq] at h
        obtain ⟨h1, h2⟩ := h
        subst h1; subst h2
        rw [List.append_assoc, ih rest1 rs _ hrec, hf input s1 r1 rest1 hfi]

theorem readArrayResponse_consumed (f : List Nat → Except Err RResult)
    (hf : ∀ input s raw rest, f input = .ok (s, raw, rest) → raw ++ rest = input)
    (raw0 input s raw rest : List Nat)
    (h : readArrayResponse f raw0 input = .ok (s, raw, rest)) :
    raw ++ rest = raw0 ++ input := by
  unfold readArrayResponse at h
  cases hl : readLine input with
  | none => simp [hl] at h
  | some p =>
    obtain ⟨line, rest1⟩ := p
    simp only [hl] at h
    cases ha : atoi (trimSpace line) with
    | none => simp [ha] at h
    | some count =>
      simp only [ha] at h
      split at h
      · simp only [Except.ok.injEq, Prod.mk.injEq] at h
        obtain ⟨-, h2, h3⟩ := h
        subst h2; subst h3
        rw [List.append_assoc, readLine_append input line _ hl]
      · split at h
        · simp only [Except.ok.injEq, Prod.mk.injEq] at h
          obtain ⟨-, h2, h3⟩ := h
          subst h2; subst h3
          rw [List.append_assoc, readLine_append input line _ hl]
        · cases he : readElemsWith f count.toNat rest1 with
          | error e => simp [he] at h
          | ok t =>
            obtain ⟨rs, rest2⟩ := t
            simp only [he, Except.ok.injEq, Prod.mk.injEq] at h
            obtain ⟨-, h2, h3⟩ := h
            subst h2; subst h3
            rw [List.append_assoc, List.append_assoc,
              readElemsWith_consumed f hf count.toNat rest1 rs _ he,
              readLine_append input line _ hl]

theorem readMapResponse_consumed (f : List Nat → Except Err RResult)
    (hf : ∀ input s raw rest, f input = .ok (s, raw, rest) → raw ++ rest = input)
    (raw0 input s raw rest : List Nat)
    (h : readMapResponse f raw0 input = .ok (s, raw, rest)) :
    raw ++ rest = raw0 ++ input := by
  unfold readMapResponse at h
  cases hl : readLine input with
  | none => simp [hl] at h
  | some p =>
    obtain ⟨line, rest1⟩ := p
    simp only [hl] at h
    cases ha : atoi (trimSpace line) with
    | none => simp [ha] at h
    | some count =>
      simp only [ha] at h
      split at h
      · simp only [Except.ok.injEq, Prod.mk.injEq] at h
        obtain ⟨-, h2, h3⟩ := h
        subst h2; subst h3
        rw [List.append_assoc, readLine_append input line _ hl]
      · split at h
        · simp only [Except.ok.injEq, Prod.mk.injEq] at h
          obtain ⟨-, h2, h3⟩ := h
          subst h2; subst h3
          rw [List.append_assoc, readLine_append input line _ hl]
        · cases he : readElemsWith f (count.toNat * 2) rest1 with
          | error e => simp [he] at h
          | ok t =>
            obtain ⟨rs, rest2⟩ := t
            simp only [he, Except.ok.injEq, Prod.mk.injEq] at h
            obtain ⟨-, h2, h3⟩ := h
            subst h2; subst h3
            rw [List.append_assoc, List.append_assoc,
              readElemsWith_consumed f hf _ rest1 rs _ he,
              readLine_append input line _ hl]

theorem readSetResponse_consumed (f : List Nat → Except Err RResult)
    (hf : ∀ input s raw rest, f input = .ok (s, raw, rest) → raw ++ rest = input)
    (raw0 input s raw rest : List Nat)
    (h : readSetResponse f raw0 input = .ok (s, raw, rest)) :
    raw ++ rest = raw0 ++ input := by
  unfold readSetResponse at h
  cases hl : readLine input with
  | none => simp [hl] at h
  | some p =>
    obtain ⟨line, rest1⟩ := p
    simp only [hl] at h
    cases ha : atoi (trimSpace line) with
    | none => simp [ha] at h
    | some count =>
      simp only [ha] at h
      split at h
      · simp only [Except.ok.injEq, Prod.mk.injEq] at h
        obtain ⟨-, h2, h3⟩ := h
        subst h2; subst h3
        rw [List.append_assoc, readLine_append input line _ hl]
      · split at h
        · simp only [Except.ok.injEq, Prod.mk.injEq] at h
          obtain ⟨-, h2, h3⟩ := h
          subst h2; subst h3
          rw [List.append_assoc, readLine_append input line _ hl]
        · cases he : readElemsWith f count.toNat rest1 with
          | error e => simp [he] at h
          | ok t =>
            obtain ⟨rs, rest2⟩ := t
            simp only [he, Except.ok.injEq, Prod.mk.injEq] at h
            obtain ⟨-, h2, h3⟩ := h
            subst h2; subst h3
            rw [List.append_assoc, List.append_assoc,
              readElemsWith_consumed f hf _ rest1 rs _ he,
              readLine_append input line _ hl]

theorem readAttributeResponse_consumed (f : List Nat → Except Err RResult)
    (hf : ∀ input s raw rest, f input = .ok (s, raw, rest) → raw ++ rest = input)
    (raw0 input s raw rest : List Nat)
    (h : readAttributeResponse f raw0 input = .ok (s, raw, rest)) :
    raw ++ rest = raw0 ++ input := by
  unfold readAttributeResponse at h
  cases hl : readLine input with
  | none => simp [hl] at h
  | some p =>
    obtain ⟨line, rest1⟩ := p
    simp only [hl] at h
    cases ha : atoi (trimSpace line) with
    | none => simp [ha] at h
    | some count =>
      simp only [ha] at h
      cases he : readElemsWith f (count * 2).toNat rest1 with
      | error e => simp [he] at h
      | ok t =>
        obtain ⟨rs, rest2⟩ := t
        simp only [he] at h
        cases hv : f rest2 with
        | error e => simp [hv] at h
        | ok t2 =>
          obtain ⟨s2, vraw, rest3⟩ := t2
          simp only [hv, Except.ok.injEq, Prod.mk.injEq] at h
          obtain ⟨-, h2, h3⟩ := h
          subst h2; subst h3
          rw [List.append_assoc, List.append_assoc, List.append_assoc,
            hf rest2 s2 vraw _ hv,
            readElemsWith_consumed f hf _ rest1 rs _ he,
            readLine_append input line _ hl]

theorem readResponse_succ (fuel : Nat) (b : Nat) (bs : List Nat) :
    readResponse (fuel + 1) (b :: bs) =
      (if b = 43 then readSimpleString [b] bs
      else if b = 45 then readSimpleString [b] bs
      else if b = 58 then readSimpleString [b] bs
      else if b = 36 then readBulkStringResponse [b] bs
      else if b = 42 then readArrayResponse (readResponse fuel) [b] bs
      else if b = 95 then readNull [b] bs
      else if b = 44 then readSimpleString [b] bs
      else if b = 35 then readBoolean [b] bs
      else if b = 33 then readBulkStringResponse [b] bs
      else if b = 61 then readVerbatimString [b] bs
      else if b = 40 then readSimpleString [b] bs
      else if b = 37 then readMapResponse (readResponse fuel) [b] bs
      else if b = 126 then readSetResponse (readResponse fuel) [b] bs
      else if b = 62 then readArrayResponse (readResponse fuel) [b] bs
      else if b = 124 then readAttributeResponse (readResponse fuel) [b] bs
      else
        match readLine bs with
        | none => .error .eof
        | some (line, rest') => .ok (b :: trimSpace line, b :: line, rest')) := rfl

theorem readCommand_cons (b : Nat) (bs : List Nat) :
    readCommand (b :: bs) =
      (if b = 42 then readRESPCommand (b :: bs) else readInlineCommand (b :: bs)) := rfl

theorem readResponse_consumed :
    ∀ fuel input s raw rest, readResponse fuel input = .ok (s, raw, rest) →
      raw ++ rest = input := by
  intro fuel
  induction fuel with
  | zero => intro input s raw rest h; exact Except.noConfusion h
  | succ fuel ih =>
    intro input s raw rest h
    cases input with
    | nil => exact Except.noConfusion h
    | cons b bs =>
      rw [readResponse_succ] at h
      by_cases hc43 : b = 43
      · rw [if_pos hc43] at h
        exact readSimpleString_consumed [b] bs s raw rest h
      rw [if_neg hc43] at h
      by_cases hc45 : b = 45
      · rw [if_pos hc45] at h
        exact readSimpleString_consumed [b] bs s raw rest h
      rw [if_neg hc45] at h
      by_cases hc58 : b = 58
      · rw [if_pos hc58] at h
        exact readSimpleString_consumed [b] bs s raw rest h
      rw [if_neg hc58] at h
      by_cases hc36 : b = 36
      · rw [if_pos hc36] at h
        exact readBulkStringResponse_consumed [b] bs s raw rest h
      rw [if_neg hc36] at h
      by_cases hc42 : b = 42
      · rw [if_pos hc42] at h
        exact readArrayResponse_consumed _ ih [b] bs s raw rest h
      rw [if_neg hc42] at h
      by_cases hc95 : b = 95
      · rw [if_pos hc95] at h
        exact readNull_consumed [b] bs s raw rest h
      rw [if_neg hc95] at h
      by_cases hc44 : b = 44
      · rw [if_pos hc44] at h
        exact readSimpleString_consumed [b] bs s raw rest h
      rw [if_neg hc44] at h
      by_cases hc35 : b = 35
      · rw [if_pos hc35] at h
        exact readBoolean_consumed [b] bs s raw rest h
      rw [if_neg hc35] at h
      by_cases hc33 : b = 33
      · rw [if_pos hc33] at h
        exact readBulkStringResponse_consumed [b] bs s raw rest h
      rw [if_neg hc33] at h
      by_cases hc61 : b = 61
      · rw [if_pos hc61] at h
        exact readVerbatimString_consumed [b] bs s raw rest h
      rw [if_neg hc61] at h
      by_cases hc40 : b = 40
      · rw [if_pos hc40] at h
        exact readSimpleString_consumed [b] bs s raw rest h
      rw [if_neg hc40] at h
      by_cases hc37 : b = 37
      · rw [if_pos hc37] at h
        exact readMapResponse_consumed _ ih [b] bs s raw rest h
      rw [if_neg hc37] at h
      by_cases hc126 : b = 126
      · rw [if_pos hc126] at h
        exact readSetResponse_consumed _ ih [b] bs s raw rest h
      rw [if_neg hc126] at h
      by_cases hc62 : b = 62
      · rw [if_pos hc62] at h
        exact readArrayResponse_consumed _ ih [b] bs s raw rest h
      rw [if_neg hc62] at h
      by_cases hc124 : b = 124
      · rw [if_pos hc124] at h
        exact readAttributeResponse_consumed _ ih [b] bs s raw rest h
      rw [if_neg hc124] at h
      cases hl : readLine bs with
      | none => rw [hl] at h; exact Except.noConfusion h
      | some p =>
        obtain ⟨line, rest1⟩ := p
        simp only [hl, Except.ok.injEq, Prod.mk.injEq] at h
        obtain ⟨-, h2, h3⟩ := h
        subst h2; subst h3
        simpa using congrArg (b :: ·) (readLine_append bs line _ hl)
theorem readBulkString_consumed (input v raw rest : List Nat)
    (h : readBulkString input = .ok (v, raw, rest)) : raw ++ rest = input := by
  unfold readBulkString at h
  cases hl : readLine input with
  | none => simp [hl] at h
  | some p =>
    obtain ⟨line, rest1⟩ := p
    simp only [hl] at h
    split at h
    · simp at h
    · cases ha : atoi (trimSpace line.tail) with
      | none => simp [ha] at h
      | some len =>
        simp only [List.drop_one, ha] at h
        split at h
        · simp only [Except.ok.injEq, Prod.mk.injEq] at h
          obtain ⟨-, h2, h3⟩ := h
          subst h2; subst h3
          exact readLine_append input line _ hl
        · cases ht : takeExact (len.toNat + 2) rest1 with
          | none => simp [ht] at h
          | some q =>
            obtain ⟨data, rest2⟩ := q
            simp only [ht, Except.ok.injEq, Prod.mk.injEq] at h
            obtain ⟨-, h2, h3⟩ := h
            subst h2; subst h3
            rw [List.append_assoc, takeExact_append _ _ _ _ ht,
              readLine_append input line _ hl]

theorem readParts_consumed :
    ∀ n input vs raw rest, readParts n input = .ok (vs, raw, rest) →
      raw ++ rest = input := by
  intro n
  induction n with
  | zero =>
    intro input vs raw rest h
    simp only [readParts, Except.ok.injEq, Prod.mk.injEq] at h
    obtain ⟨-, h2, h3⟩ := h
    subst h2; subst h3; rfl
  | succ n ih =>
    intro input vs raw rest h
    unfold readParts at h
    cases hb : readBulkString input with
    | error e => simp [hb] at h
    | ok t =>
      obtain ⟨v, r, rest1⟩ := t
      simp only [hb] at h
      cases hrec : readParts n rest1 with
      | error e => simp [hrec] at h
      | ok t2 =>
        obtain ⟨vs2, rs, rest2⟩ := t2
        simp only [hrec, Except.ok.injEq, Prod.mk.injEq] at h
        obtain ⟨-, h2, h3⟩ := h
        subst h2; subst h3
        rw [List.append_assoc, ih rest1 vs2 rs _ hrec,
          readBulkString_consumed input v r rest1 hb]

theorem readRESPCommand_consumed (input c raw rest : List Nat) (args : List (List Nat))
    (h : readRESPCommand input = .ok (c, args, raw, rest)) : raw ++ rest = input := by
  unfold readRESPCommand at h
  cases hl : readLine input with
  | none => simp [hl] at h
  | some p =>
    obtain ⟨line, rest1⟩ := p
    simp only [hl] at h
    split at h
    · simp at h
    · cases ha : atoi (trimSpace line.tail) with
      | none => simp [ha] at h
      | some count =>
        simp only [List.drop_one, ha] at h
        split at h
        · simp at h
        · cases hp : readParts count.toNat rest1 with
          | error e => simp [hp] at h
          | ok t =>
            obtain ⟨parts, partsRaw, rest2⟩ := t
            simp only [hp, Except.ok.injEq, Prod.mk.injEq] at h
            obtain ⟨-, -, h3, h4⟩ := h
            subst h3; subst h4
            rw [List.append_assoc, readParts_consumed _ rest1 parts partsRaw _ hp,
              readLine_append input line _ hl]

theorem readInlineCommand_consumed (input c raw rest : List Nat) (args : List (List Nat))
    (h : readInlineCommand input = .ok (c, args, raw, rest)) : raw ++ rest = input := by
  unfold readInlineCommand at h
  cases hl : readLine input with
  | none => simp [hl] at h
  | some p =>
    obtain ⟨line, rest1⟩ := p
    simp only [hl] at h
    split at h
    · simp at h
    · simp only [Except.ok.injEq, Prod.mk.injEq] at h
      obtain ⟨-, -, h3, h4⟩ := h
      subst h3; subst h4
      exact readLine_append input line _ hl

theorem readCommand_consumed (input c raw rest : List Nat) (args : List (List Nat))
    (h : readCommand input = .ok (c, args, raw, rest)) : raw ++ rest = input := by
  cases input with
  | nil => exact Except.noConfusion h
  | cons b bs =>
    rw [readCommand_cons] at h
    split at h
    · exact readRESPCommand_consumed _ c raw rest args h
    · exact readInlineCommand_consumed _ c raw rest args h

/-- C1: for every response unit and every command that readResponse or
readCommand decodes successfully, the returned rawNats are byte-for-byte
the prefix of the input stream that was consumed (raw followed by the
unread rest is the whole input), so retransmitting rawNats reproduces the
original wire bytes exactly; this holds at every nesting depth of
aggregates and for both command forms. -/
theorem roundtrip_fidelity :
    (∀ fuel input s raw rest, readResponse fuel input = .ok (s, raw, rest) →
      raw ++ rest = input) ∧
    (∀ input c args raw rest, readCommand input = .ok (c, args, raw, rest) →
      raw ++ rest = input) :=
  ⟨readResponse_consumed,
   fun input c args raw rest h => readCommand_consumed input c raw rest args h⟩

/-- Depth-4 nested aggregate response used as the round-trip witness. -/
def exNested : List Nat := bytesOf "*1\r\n%1\r\n+k\r\n~1\r\n*1\r\n:5\r\n"

/-- Multi-part GET command used as the round-trip witness. -/
def exGetCmd : List Nat := bytesOf "*2\r\n$3\r\nGET\r\n$3\r\nfoo\r\n"

theorem roundtrip_fidelity_witness :
    readResponse 9 exNested = .ok (bytesOf "(1 elements)", exNested, []) ∧
    exNested ++ ([] : List Nat) = exNested ∧
    readCommand exGetCmd = .ok (bytesOf "GET", [bytesOf "foo"], exGetCmd, []) ∧
    exGetCmd ++ ([] : List Nat) = exGetCmd :=
  ⟨by decide, roundtrip_fidelity.1 9 exNested (bytesOf "(1 elements)") exNested [] (by decide),
   by decide, roundtrip_fidelity.2 exGetCmd (bytesOf "GET") [bytesOf "foo"] exGetCmd [] (by decide)⟩

/-! Arithmetic facts about the decimal printer and parser, and how the
readers behave on well-formed encoded units. -/

theorem natBytesAux_all_digits :
    ∀ fuel n b, b ∈ natBytesAux fuel n → isDigitByte b = true := by
  intro fuel
  induction fuel with
  | zero => intro n b hb; simp [natBytesAux] at hb
  | succ fuel ih =>
    intro n b hb
    unfold natBytesAux at hb
    split at hb
    · simp at hb
    · rcases List.mem_append.mp hb with h1 | h2
      · exact ih _ b h1
      · have : b = n % 10 + 48 := by simpa using h2
        subst this
        have : n % 10 < 10 := Nat.mod_lt n (by norm_num)
        simp [isDigitByte]
        omega

theorem natBytesAux_foldl :
    ∀ fuel n, n ≤ fuel → ∀ acc,
      (natBytesAux fuel n).foldl (fun m b => 10 * m + (b - 48)) acc =
        acc * 10 ^ (natBytesAux fuel n).length + n := by
  intro fuel
  induction fuel with
  | zero =>
    intro n hn acc
    interval_cases n
    simp [natBytesAux]
  | succ fuel ih =>
    intro n hn acc
    by_cases h0 : n = 0
    · subst h0; simp [natBytesAux]
    · have hdiv : n / 10 ≤ fuel := by omega
      rw [show natBytesAux (fuel + 1) n = natBytesAux fuel (n / 10) ++ [n % 10 + 48] by
        simp [natBytesAux, h0]]
      rw [List.foldl_append, ih _ hdiv acc]
      simp [List.length_append, pow_succ]
      ring_nf
      omega

theorem natBytes_all_digits (n : Nat) : ∀ b ∈ natBytes n, isDigitByte b = true := by
  intro b hb
  unfold natBytes at hb
  split at hb
  · have : b = 48 := by simpa using hb
    subst this; simp [isDigitByte]
  · exact natBytesAux_all_digits n n b hb

theorem natBytes_ne_nil (n : Nat) : natBytes n ≠ [] := by
  unfold natBytes
  split
  · simp
  · rename_i h0
    have : 1 ≤ n := Nat.one_le_iff_ne_zero.mpr h0
    cases hn : n with
    | zero => omega
    | succ m =>
      simp [natBytesAux, hn ▸ h0]

theorem digitsVal_natBytes (n : Nat) : digitsVal (natBytes n) = some n := by
  unfold digitsVal
  rw [if_neg (natBytes_ne_nil n), if_pos (List.all_eq_true.mpr (natBytes_all_digits n))]
  congr 1
  unfold natBytes
  split
  · rename_i h0; subst h0; decide
  · exact (natBytesAux_foldl n n le_rfl 0).trans (by simp)

theorem isSpaceByte_of_digit (b : Nat) (h : isDigitByte b = true) :
    isSpaceByte b = false := by
  simp [isDigitByte] at h
  simp [isSpaceByte]
  omega

theorem dropWhile_no_space (l : List Nat) (h : ∀ b ∈ l, isSpaceByte b = false) :
    l.dropWhile isSpaceByte = l := by
  cases l with
  | nil => rfl
  | cons a t => simp [List.dropWhile_cons, h a (List.mem_cons_self a t)]

theorem natBytes_head_not_sign (n : Nat) :
    (natBytes n).head? ≠ some 43 ∧ (natBytes n).head? ≠ some 45 := by
  cases hl : natBytes n with
  | nil => exact absurd hl (natBytes_ne_nil n)
  | cons a t =>
    have ha : isDigitByte a = true := natBytes_all_digits n a (hl ▸ List.mem_cons_self a t)
    simp [isDigitByte] at ha
    constructor <;> simp <;> omega

theorem atoi_natBytes (n : Nat) : atoi (natBytes n) = some (n : Int) := by
  obtain ⟨h43, h45⟩ := natBytes_head_not_sign n
  unfold atoi
  rw [if_neg h43, if_neg h45, digitsVal_natBytes]
  rfl

theorem trimSpace_digits (l : List Nat) (hne : l ≠ [])
    (h : ∀ b ∈ l, isDigitByte b = true) : trimSpace (l ++ crlf) = l := by
  have hns : ∀ b ∈ l, isSpaceByte b = false := fun b hb => isSpaceByte_of_digit b (h b hb)
  unfold trimSpace crlf
  have h1 : (l ++ [13, 10]).dropWhile isSpaceByte = l ++ [13, 10] := by
    cases l with
    | nil => exact absurd rfl hne
    | cons a t =>
      rw [List.cons_append, List.dropWhile_cons,
        hns a (List.mem_cons_self a t)]
      simp
  rw [h1]
  have h2 : (l ++ [13, 10]).reverse = 10 :: 13 :: l.reverse := by simp
  rw [h2]
  rw [show (10 : Nat) :: 13 :: l.reverse = [10, 13] ++ l.reverse by rfl]
  rw [show List.dropWhile isSpaceByte ([10, 13] ++ l.reverse) =
      List.dropWhile isSpaceByte l.reverse by simp [List.dropWhile_cons, isSpaceByte]]
  rw [dropWhile_no_space l.reverse (fun b hb => hns b (List.mem_reverse.mp hb))]
  simp

theorem readLine_no_newline (A : List Nat) (tail : List Nat)
    (hA : ∀ b ∈ A, b ≠ 10) : readLine (A ++ 10 :: tail) = some (A ++ [10], tail) := by
  induction A with
  | nil => simp [readLine]
  | cons a A ih =>
    have ha : a ≠ 10 := hA a (List.mem_cons_self a A)
    rw [List.cons_append]
    unfold readLine
    rw [if_neg ha, ih (fun b hb => hA b (List.mem_cons_of_mem a hb))]
    rfl

theorem readLine_countLine (n : Nat) (tail : List Nat) :
    readLine (natBytes n ++ crlf ++ tail) = some (natBytes n ++ crlf, tail) := by
  have hsh : natBytes n ++ crlf ++ tail = (natBytes n ++ [13]) ++ 10 :: tail := by
    simp [crlf]
  rw [hsh, readLine_no_newline]
  · simp [crlf]
  · intro b hb
    rcases List.mem_append.mp hb with h1 | h2
    · have := natBytes_all_digits n b h1
      simp [isDigitByte] at this
      omega
    · have : b = 13 := by simpa using h2
      omega

theorem takeExact_prefix (l tail : List Nat) :
    takeExact l.length (l ++ tail) = some (l, tail) := by
  unfold takeExact
  rw [if_pos (by simp)]
  simp

theorem readBulkStringResponse_encode (raw0 p rest : List Nat) :
    readBulkStringResponse raw0 (encodeBulkBody p ++ rest) =
      .ok (bulkSummary p, raw0 ++ encodeBulkBody p, rest) := by
  have hl : readLine (encodeBulkBody p ++ rest) =
      some (natBytes p.length ++ crlf, (p ++ crlf) ++ rest) := by
    rw [show encodeBulkBody p ++ rest =
        natBytes p.length ++ crlf ++ ((p ++ crlf) ++ rest) by simp [encodeBulkBody]]
    exact readLine_countLine p.length ((p ++ crlf) ++ rest)
  have hts : trimSpace (natBytes p.length ++ crlf) = natBytes p.length :=
    trimSpace_digits _ (natBytes_ne_nil _) (natBytes_all_digits _)
  have ha : atoi (natBytes p.length) = some (p.length : Int) := atoi_natBytes _
  have hlen0 : ¬((p.length : Int) < 0) := by omega
  have htk : takeExact ((p.length : Int).toNat + 2) ((p ++ crlf) ++ rest) =
      some (p ++ crlf, rest) := by
    rw [show ((p.length : Int)).toNat + 2 = (p ++ crlf).length by simp [crlf]]
    exact takeExact_prefix (p ++ crlf) rest
  simp only [readBulkStringResponse, hl, hts, ha, htk, if_neg hlen0]
  by_cases h50 : 50 < p.length
  · rw [if_pos (by exact_mod_cast h50), bulkSummary, if_pos h50]
    rw [List.take_append_eq_append_take, Nat.sub_eq_zero_of_le (by omega), List.take_zero,
      List.append_nil]
    simp [encodeBulkBody]
  · rw [if_neg (by exact_mod_cast h50), bulkSummary, if_neg h50]
    rw [Int.toNat_natCast, List.take_append_eq_append_take, Nat.sub_self, List.take_zero,
      List.append_nil, List.take_length]
    simp [encodeBulkBody]

theorem readVerbatimString_encode (raw0 p rest : List Nat) :
    readVerbatimString raw0 (encodeBulkBody p ++ rest) =
      .ok (verbatimSummary p, raw0 ++ encodeBulkBody p, rest) := by
  have hl : readLine (encodeBulkBody p ++ rest) =
      some (natBytes p.length ++ crlf, (p ++ crlf) ++ rest) := by
    rw [show encodeBulkBody p ++ rest =
        natBytes p.length ++ crlf ++ ((p ++ crlf) ++ rest) by simp [encodeBulkBody]]
    exact readLine_countLine p.length ((p ++ crlf) ++ rest)
  have hts : trimSpace (natBytes p.length ++ crlf) = natBytes p.length :=
    trimSpace_digits _ (natBytes_ne_nil _) (natBytes_all_digits _)
  have ha : atoi (natBytes p.length) = some (p.length : Int) := atoi_natBytes _
  have hlen0 : ¬((p.length : Int) < 0) := by omega
  have htk : takeExact ((p.length : Int).toNat + 2) ((p ++ crlf) ++ rest) =
      some (p ++ crlf, rest) := by
    rw [show ((p.length : Int)).toNat + 2 = (p ++ crlf).length by simp [crlf]]
    exact takeExact_prefix (p ++ crlf) rest
  have hcontent : (p ++ crlf).take ((p.length : Int)).toNat = p := by
    rw [Int.toNat_natCast, List.take_append_eq_append_take, Nat.sub_self, List.take_zero,
      List.append_nil, List.take_length]
  simp only [readVerbatimString, hl, hts, ha, htk, if_neg hlen0, hcontent]
  rw [verbatimSummary, bulkSummary]
  by_cases h4 : 4 < p.length
  · rw [if_pos h4]
    by_cases h50 : 50 < (p.drop 4).length
    · rw [if_pos h50]
      have h50' : 50 < p.length - 4 := by simpa using h50
      simp [encodeBulkBody, h50']
    · rw [if_neg h50]
      have h50' : ¬(50 < p.length - 4) := by simpa using h50
      simp [encodeBulkBody, h50']
  · rw [if_neg h4]
    by_cases h50 : 50 < p.length
    · rw [if_pos h50]
      simp [encodeBulkBody, h50]
    · rw [if_neg h50]
      simp [encodeBulkBody, h50]

/-- C2 (amended): for every bulk-string or blob-error response payload, the
summary is the first 50 payload bytes followed by three ASCII dots when the
declared length exceeds 50, the full payload text otherwise, and rawNats
is the complete untruncated payload plus framing. -/
theorem bulk_truncation : ∀ (fuel : Nat) (p rest : List Nat),
    readResponse (fuel + 1) (36 :: (encodeBulkBody p ++ rest)) =
      .ok (bulkSummary p, 36 :: encodeBulkBody p, rest) ∧
    readResponse (fuel + 1) (33 :: (encodeBulkBody p ++ rest)) =
      .ok (bulkSummary p, 33 :: encodeBulkBody p, rest) := by
  intro fuel p rest
  constructor
  · show readBulkStringResponse [36] (encodeBulkBody p ++ rest) = _
    rw [readBulkStringResponse_encode]
    rfl
  · show readBulkStringResponse [33] (encodeBulkBody p ++ rest) = _
    rw [readBulkStringResponse_encode]
    rfl

/-- C2 counterexample: at a 51-byte payload the code summarizes with three
ASCII dots, not with the one-character ellipsis the claim states. -/
theorem bulk_truncation_counterexample :
    readResponse 1 (36 :: encodeBulkBody (List.replicate 51 97)) =
      .ok (List.replicate 50 97 ++ bytesOf "...",
        36 :: encodeBulkBody (List.replicate 51 97), []) ∧
    List.replicate 50 97 ++ bytesOf "..." ≠ specBulkSummary (List.replicate 51 97) :=
  ⟨by decide, by decide⟩

/-- C6 (amended): for every verbatim-string response payload, the leading 4
content bytes are stripped only when the content is longer than 4 bytes
(shorter contents are summarized whole), and then the bulk truncation rule
with three ASCII dots applies to the remainder. -/
theorem verbatim_truncation : ∀ (fuel : Nat) (p rest : List Nat),
    readResponse (fuel + 1) (61 :: (encodeBulkBody p ++ rest)) =
      .ok (verbatimSummary p, 61 :: encodeBulkBody p, rest) := by
  intro fuel p rest
  show readVerbatimString [61] (encodeBulkBody p ++ rest) = _
  rw [readVerbatimString_encode]
  rfl

/-- C6 counterexample: a verbatim payload of exactly 4 bytes is not
stripped, so its summary keeps those 4 bytes, while the claim demands the
type tag always be removed. -/
theorem verbatim_truncation_counterexample :
    readResponse 1 (61 :: encodeBulkBody (bytesOf "txt:")) =
      .ok (bytesOf "txt:", 61 :: encodeBulkBody (bytesOf "txt:"), []) ∧
    bytesOf "txt:" ≠ specVerbatimSummary (bytesOf "txt:") :=
  ⟨by decide, by decide⟩

/-- C5: the legacy null bulk string response and the extended null response
both decode successfully and both summarize to exactly the text (nil). -/
theorem null_equivalence : ∀ fuel : Nat,
    readResponse (fuel + 1) (bytesOf "$-1\r\n") =
      .ok (bytesOf "(nil)", bytesOf "$-1\r\n", []) ∧
    readResponse (fuel + 1) (bytesOf "_\r\n") =
      .ok (bytesOf "(nil)", bytesOf "_\r\n", []) :=
  fun _ => ⟨rfl, rfl⟩

/-- C9: decoding a boolean response never fails on a well-framed line: for
every line the reader returns ok, with summary true exactly when the
trimmed content is the single byte t and false for every other content. -/
theorem boolean_total (raw0 input line rest : List Nat)
    (h : readLine input = some (line, rest)) :
    readBoolean raw0 input =
      .ok (if trimSpace line = bytesOf "t" then bytesOf "true" else bytesOf "false",
        raw0 ++ line, rest) := by
  by_cases ht : trimSpace line = bytesOf "t" <;> simp [readBoolean, h, ht]

theorem boolean_total_witness :
    readLine (bytesOf "x\r\n") = some (bytesOf "x\r\n", []) ∧
    readBoolean [35] (bytesOf "x\r\n") =
      .ok (if trimSpace (bytesOf "x\r\n") = bytesOf "t" then bytesOf "true"
        else bytesOf "false", [35] ++ bytesOf "x\r\n", []) :=
  ⟨by decide, boolean_total [35] (bytesOf "x\r\n") (bytesOf "x\r\n") [] (by decide)⟩

/-! The multi-part command decoder on well-formed encoded commands, the
attribute reader, the count guard, and the session and plugin models. -/

theorem readBulkString_encode (s rest : List Nat) :
    readBulkString (encodeBulk s ++ rest) = .ok (s, encodeBulk s, rest) := by
  have hl : readLine (encodeBulk s ++ rest) =
      some (36 :: (natBytes s.length ++ crlf), (s ++ crlf) ++ rest) := by
    rw [show encodeBulk s ++ rest =
        (36 :: (natBytes s.length ++ [13])) ++ 10 :: ((s ++ crlf) ++ rest) by
      simp [encodeBulk, crlf]]
    rw [readLine_no_newline]
    · simp [crlf]
    · intro b hb
      simp at hb
      rcases hb with h36 | h1 | h13
      · omega
      · have := natBytes_all_digits s.length b h1
        simp [isDigitByte] at this
        omega
      · omega
  have hguard : ¬((36 :: (natBytes s.length ++ crlf)).length < 3 ∨
      (36 :: (natBytes s.length ++ crlf)).head? ≠ some 36) := by
    push_neg
    refine ⟨?_, rfl⟩
    simp [crlf]
  have hts : trimSpace (natBytes s.length ++ crlf) = natBytes s.length :=
    trimSpace_digits _ (natBytes_ne_nil _) (natBytes_all_digits _)
  have ha : atoi (natBytes s.length) = some (s.length : Int) := atoi_natBytes _
  have hlen0 : ¬((s.length : Int) < 0) := by omega
  have htk : takeExact ((s.length : Int).toNat + 2) ((s ++ crlf) ++ rest) =
      some (s ++ crlf, rest) := by
    rw [show ((s.length : Int)).toNat + 2 = (s ++ crlf).length by simp [crlf]]
    exact takeExact_prefix (s ++ crlf) rest
  have hvalue : (s ++ crlf).take ((s.length : Int)).toNat = s := by
    rw [Int.toNat_natCast, List.take_append_eq_append_take, Nat.sub_self, List.take_zero,
      List.append_nil, List.take_length]
  have htl : (36 :: (natBytes s.length ++ crlf)).tail = natBytes s.length ++ crlf := rfl
  simp only [readBulkString, hl, if_neg hguard, List.drop_one, htl, hts, ha,
    if_neg hlen0, htk, hvalue]
  simp [encodeBulk]

theorem readParts_encode :
    ∀ (parts : List (List Nat)) (rest : List Nat),
      readParts parts.length ((parts.map encodeBulk).flatten ++ rest) =
        .ok (parts, (parts.map encodeBulk).flatten, rest) := by
  intro parts
  induction parts with
  | nil => intro rest; simp [readParts]
  | cons s ps ih =>
    intro rest
    rw [show ((s :: ps).map encodeBulk).flatten ++ rest =
        encodeBulk s ++ ((ps.map encodeBulk).flatten ++ rest) by simp]
    show readParts (ps.length + 1) _ = _
    simp only [readParts, readBulkString_encode, ih]
    simp

/-- C4: for every well-formed multi-part command (a star count line followed
by that many encoded bulk strings), the decoder returns the first
byte-string uppercased as the operation and the remaining byte-strings, in
order, as the arguments; in particular the GET foo example decodes to
operation GET with arguments [foo]. -/
theorem multipart_command_decode :
    (∀ (parts : List (List Nat)) (rest : List Nat), parts ≠ [] →
      readRESPCommand (encodeMultiPart parts ++ rest) =
        .ok (toUpperBytes (parts.headD []), parts.drop 1, encodeMultiPart parts, rest)) ∧
    readCommand (bytesOf "*2\r\n$3\r\nGET\r\n$3\r\nfoo\r\n") =
      .ok (bytesOf "GET", [bytesOf "foo"], bytesOf "*2\r\n$3\r\nGET\r\n$3\r\nfoo\r\n", []) := by
  constructor
  · intro parts rest hne
    have hl : readLine (encodeMultiPart parts ++ rest) =
        some (42 :: (natBytes parts.length ++ crlf),
          (parts.map encodeBulk).flatten ++ rest) := by
      rw [show encodeMultiPart parts ++ rest =
          (42 :: (natBytes parts.length ++ [13])) ++
            10 :: ((parts.map encodeBulk).flatten ++ rest) by
        simp [encodeMultiPart, crlf]]
      rw [readLine_no_newline]
      · simp [crlf]
      · intro b hb
        simp at hb
        rcases hb with h42 | h1 | h13
        · omega
        · have := natBytes_all_digits parts.length b h1
          simp [isDigitByte] at this
          omega
        · omega
    have hguard : ¬((42 :: (natBytes parts.length ++ crlf)).length < 3 ∨
        (42 :: (natBytes parts.length ++ crlf)).head? ≠ some 42) := by
      push_neg
      refine ⟨?_, rfl⟩
      simp [crlf]
    have hts : trimSpace (natBytes parts.length ++ crlf) = natBytes parts.length :=
      trimSpace_digits _ (natBytes_ne_nil _) (natBytes_all_digits _)
    have ha : atoi (natBytes parts.length) = some (parts.length : Int) := atoi_natBytes _
    have hpos : ¬((parts.length : Int) ≤ 0) := by
      have : 0 < parts.length := List.length_pos.mpr hne
      omega
    have htl : (42 :: (natBytes parts.length ++ crlf)).tail =
        natBytes parts.length ++ crlf := rfl
    have hparts : readParts ((parts.length : Int)).toNat
        ((parts.map encodeBulk).flatten ++ rest) =
        .ok (parts, (parts.map encodeBulk).flatten, rest) := by
      rw [Int.toNat_natCast]
      exact readParts_encode parts rest
    simp only [readRESPCommand, hl, if_neg hguard, List.drop_one, htl, hts, ha,
      if_neg hpos, hparts]
    simp [encodeMultiPart]
  · decide

theorem multipart_command_decode_witness :
    ([bytesOf "get", bytesOf "foo"] : List (List Nat)) ≠ [] ∧
    readRESPCommand (encodeMultiPart [bytesOf "get", bytesOf "foo"] ++ []) =
      .ok (toUpperBytes (([bytesOf "get", bytesOf "foo"] : List (List Nat)).headD []),
        ([bytesOf "get", bytesOf "foo"] : List (List Nat)).drop 1,
        encodeMultiPart [bytesOf "get", bytesOf "foo"], []) :=
  ⟨by decide,
   multipart_command_decode.1 [bytesOf "get", bytesOf "foo"] [] (by decide)⟩

/-- C3: an attribute response consisting of a count line, that many
metadata key/value unit pairs, and one trailing value unit summarizes to
exactly the summary readResponse gives the trailing value unit, for any
metadata count; the metadata is consumed into rawBytes but never surfaced
as the summary. -/
theorem attribute_unwrapping (fuel : Nat)
    (input line rest1 metaRaw rest2 s vraw rest3 : List Nat) (count : Int)
    (hl : readLine input = some (line, rest1))
    (ha : atoi (trimSpace line) = some count)
    (hm : readElemsWith (readResponse fuel) (count * 2).toNat rest1 = .ok (metaRaw, rest2))
    (hv : readResponse fuel rest2 = .ok (s, vraw, rest3)) :
    readResponse (fuel + 1) (124 :: input) =
      .ok (s, 124 :: (line ++ metaRaw ++ vraw), rest3) := by
  show readAttributeResponse (readResponse fuel) [124] input = _
  simp only [readAttributeResponse, hl, ha, hm, hv]
  simp

/-- Attribute unit with two metadata pairs used as the unwrapping witness. -/
def exAttr : List Nat := bytesOf "2\r\n+a\r\n+1\r\n+b\r\n+2\r\n+OK\r\n"

theorem attribute_unwrapping_witness :
    readLine exAttr = some (bytesOf "2\r\n", bytesOf "+a\r\n+1\r\n+b\r\n+2\r\n+OK\r\n") ∧
    atoi (trimSpace (bytesOf "2\r\n")) = some 2 ∧
    readElemsWith (readResponse 3) ((2 * 2 : Int)).toNat
      (bytesOf "+a\r\n+1\r\n+b\r\n+2\r\n+OK\r\n") =
      .ok (bytesOf "+a\r\n+1\r\n+b\r\n+2\r\n", bytesOf "+OK\r\n") ∧
    readResponse 3 (bytesOf "+OK\r\n") = .ok (bytesOf "OK", bytesOf "+OK\r\n", []) ∧
    readResponse 4 (124 :: exAttr) =
      .ok (bytesOf "OK",
        124 :: (bytesOf "2\r\n" ++ bytesOf "+a\r\n+1\r\n+b\r\n+2\r\n" ++ bytesOf "+OK\r\n"),
        []) :=
  ⟨by decide, by decide, by decide, by decide,
   attribute_unwrapping 3 exAttr (bytesOf "2\r\n")
     (bytesOf "+a\r\n+1\r\n+b\r\n+2\r\n+OK\r\n") (bytesOf "+a\r\n+1\r\n+b\r\n+2\r\n")
     (bytesOf "+OK\r\n") (bytesOf "OK") (bytesOf "+OK\r\n") [] 2
     (by decide) (by decide) (by decide) (by decide)⟩

/-- C10 (amended): the multi-part decoder rejects every declared element
count at most zero, the count-zero command included, with the
empty-command error; an Event with an empty operation name can however
still arise from the multi-part form through a zero-length first bulk
string, as the counterexample shows. -/
theorem nonpositive_count_rejected (input line rest1 : List Nat) (count : Int)
    (hl : readLine input = some (line, rest1))
    (hlen : 3 ≤ line.length) (hhead : line.head? = some 42)
    (ha : atoi (trimSpace (line.drop 1)) = some count)
    (hcount : count ≤ 0) :
    readRESPCommand input = .error .emptyCommand := by
  have hguard : ¬(line.length < 3 ∨ line.head? ≠ some 42) := by
    push_neg
    exact ⟨by omega, hhead⟩
  simp only [readRESPCommand, hl, if_neg hguard, ha, if_pos hcount]

theorem nonpositive_count_rejected_witness :
    readLine (bytesOf "*0\r\n") = some (bytesOf "*0\r\n", []) ∧
    3 ≤ (bytesOf "*0\r\n").length ∧
    (bytesOf "*0\r\n").head? = some 42 ∧
    atoi (trimSpace ((bytesOf "*0\r\n").drop 1)) = some 0 ∧
    (0 : Int) ≤ 0 ∧
    readRESPCommand (bytesOf "*0\r\n") = .error .emptyCommand :=
  ⟨by decide, by decide, by decide, by decide, by decide,
   nonpositive_count_rejected (bytesOf "*0\r\n") (bytesOf "*0\r\n") [] 0
     (by decide) (by decide) (by decide) (by decide) (by decide)⟩

/-- C10 counterexample: the command consisting of one zero-length bulk
string decodes without error to an empty operation name, and the session
loop then creates an Event whose command is empty, contradicting the
claim that no Event with an empty operation name can come from the
multi-part form. -/
theorem empty_operation_event_counterexample :
    readCommand (bytesOf "*1\r\n$0\r\n\r\n") =
      .ok ([], [], bytesOf "*1\r\n$0\r\n\r\n", []) ∧
    (handleOneCommand [bytesOf "log"] (bytesOf "*1\r\n$0\r\n\r\n") none
        (bytesOf "+OK\r\n") 1).event =
      some { command := [], args := [], raw := bytesOf "*1\r\n$0\r\n\r\n", error := [],
             response := bytesOf "OK" } :=
  ⟨by decide, by decide⟩

/-- C7: once a command Event exists and the begin dispatch has run, a
backend write failure or a backend read/decode failure still sets the
Event error field to the failure message and still dispatches
OnCommandComplete to every registered plugin, in order, before the
iteration terminates the session. -/
theorem failure_completes_event (plugins : List (List Nat))
    (clientIn serverIn msg c raw rest : List Nat) (args : List (List Nat)) (fuel : Nat)
    (hcmd : readCommand clientIn = .ok (c, args, raw, rest)) :
    ((handleOneCommand plugins clientIn (some msg) serverIn fuel).event =
        some { command := c, args := args, raw := raw, error := msg } ∧
      (handleOneCommand plugins clientIn (some msg) serverIn fuel).trace =
        onCommandCalls plugins { command := c, args := args, raw := raw } ++
          onCommandCompleteCalls plugins
            { command := c, args := args, raw := raw, error := msg } ∧
      (handleOneCommand plugins clientIn (some msg) serverIn fuel).closed = true) ∧
    (∀ e, readResponse fuel serverIn = .error e →
      (handleOneCommand plugins clientIn none serverIn fuel).event =
          some { command := c, args := args, raw := raw, error := errorString e } ∧
      (handleOneCommand plugins clientIn none serverIn fuel).trace =
        onCommandCalls plugins { command := c, args := args, raw := raw } ++
          [.forwardToServer raw] ++
          onCommandCompleteCalls plugins
            { command := c, args := args, raw := raw, error := errorString e } ∧
      (handleOneCommand plugins clientIn none serverIn fuel).closed = true) := by
  constructor
  · simp [handleOneCommand, hcmd, onCommandCalls, onCommandCompleteCalls]
  · intro e he
    simp [handleOneCommand, hcmd, he, onCommandCalls, onCommandCompleteCalls]

theorem failure_completes_event_witness :
    readCommand (bytesOf "PING\r\n") = .ok (bytesOf "PING", [], bytesOf "PING\r\n", []) ∧
    (handleOneCommand [bytesOf "log"] (bytesOf "PING\r\n")
        (some (bytesOf "broken pipe")) (bytesOf "oops") 1).event =
      some { command := bytesOf "PING", args := [], raw := bytesOf "PING\r\n",
             error := bytesOf "broken pipe" } ∧
    readResponse 1 (bytesOf "oops") = .error .eof ∧
    (handleOneCommand [bytesOf "log"] (bytesOf "PING\r\n") none (bytesOf "oops") 1).event =
      some { command := bytesOf "PING", args := [], raw := bytesOf "PING\r\n",
             error := errorString .eof } ∧
    (handleOneCommand [bytesOf "log"] (bytesOf "PING\r\n") none (bytesOf "oops") 1).closed =
      true :=
  ⟨by decide,
   (failure_completes_event [bytesOf "log"] (bytesOf "PING\r\n") (bytesOf "oops")
     (bytesOf "broken pipe") (bytesOf "PING") (bytesOf "PING\r\n") [] [] 1 (by decide)).1.1,
   by decide,
   ((failure_completes_event [bytesOf "log"] (bytesOf "PING\r\n") (bytesOf "oops")
     (bytesOf "broken pipe") (bytesOf "PING") (bytesOf "PING\r\n") [] [] 1
     (by decide)).2 .eof (by decide)).1,
   ((failure_completes_event [bytesOf "log"] (bytesOf "PING\r\n") (bytesOf "oops")
     (bytesOf "broken pipe") (bytesOf "PING") (bytesOf "PING\r\n") [] [] 1
     (by decide)).2 .eof (by decide)).2.2⟩

/-- C8: closing the plugin manager calls Close on every registered plugin
exactly once, in registration order, regardless of which Close calls
return errors, and the overall Close always returns nil. -/
theorem close_all_plugins (ps : List PluginSpec) :
    (pmClose ps).1 = ps.map PluginSpec.name ∧ (pmClose ps).2.2 = none := by
  induction ps with
  | nil => exact ⟨rfl, rfl⟩
  | cons p rest ih =>
    cases hpc : p.closeErr <;> simp [pmClose, hpc, ih.1, ih.2]

end Proxyx
